import Mathlib

/-!
Verification of the form-submission core of the next14-drizzle-pscale-setup
template: the result protocol (FormState and its three constructors), the
Zod error projector (ZodFormError), and the form decoder (parseFormData).

JavaScript string-keyed objects (Record<string, string>) are modelled as
ordered association lists with unique keys; property assignment and
property read are modelled by setKey and lookupKey below.
-/

/-- A JS object of type Record<path, message> (source: state.ts, FormErrors),
modelled as an ordered association list whose keys are kept unique. -/
abbrev FormErrors := List (String × String)

/-- JS object property assignment obj[k] = v on a string-keyed object:
when the key is already present it keeps its position and receives the new
value; a fresh key is appended at the end (JS insertion order). The lists
this development builds always have unique keys, so updating the first
occurrence is updating the occurrence. -/
def setKey : List (String × String) → String → String → List (String × String)
  | [], k, v => [(k, v)]
  | (a, b) :: rest, k, v =>
      if a = k then (k, v) :: rest else (a, b) :: setKey rest k v

/-- JS object property read obj[k]: the value stored under key k, if any. -/
def lookupKey : List (String × String) → String → Option String
  | [], _ => none
  | (k, v) :: rest, key => if k = key then some v else lookupKey rest key

/-- One entry of a ZodError: a path into the submitted value and a
human-readable message. Zod path components are stringified when used as
object keys, so they are taken as strings here. -/
structure ZodIssue where
  path : List String
  message : String
  deriving DecidableEq, Repr

/-- A ZodError as consumed by the projector: its errors field is the ordered
sequence of issues. -/
structure ZodErrorT where
  errors : List ZodIssue
  deriving DecidableEq, Repr

/-- The JS expression err.path[0] used as an object key: the first path
component, or the string "undefined" when the path is empty (indexing past
the end of a JS array yields undefined, which stringifies to "undefined"
when used as a property key). -/
def pathKey (p : List String) : String := p.headD "undefined"

/-- From the source (error.ts, ZodFormError): iterates errors.errors in
sequence order and performs the assignment formError[err.path[0]] = err.message
for each entry, starting from the empty object. -/
def ZodFormError (errs : ZodErrorT) : FormErrors :=
  errs.errors.foldl (fun acc err => setKey acc (pathKey err.path) err.message) []

/-- From the source (state.ts, FormState): the tagged union, modelled as a
record of every JS object field any variant may carry; a field absent from
a variant is none. The source spells the success message field messgae. -/
structure FormState where
  state : String
  success : Option Bool
  messgae : Option String
  errors : Option FormErrors
  deriving DecidableEq

/-- From the source (state.ts, SuccessState). -/
def SuccessState (msg : String) : FormState :=
  ⟨"success", some true, some msg, none⟩

/-- From the source (state.ts, FailState): wraps the given errors with no
check of any kind. -/
def FailState (errors : FormErrors) : FormState :=
  ⟨"fail", some false, none, some errors⟩

/-- From the source (state.ts, DefaultState). -/
def DefaultState : FormState :=
  ⟨"default", none, none, none⟩

/-- Modelled from the spec: one field constraint of a ValidationSchema — the
field name it inspects, a predicate on the (possibly absent) submitted value,
and the failure message attached to the constraint. The Zod schema objects
themselves are an external library and are not part of this repository. -/
structure FieldConstraint where
  field : String
  check : Option String → Bool
  message : String

/-- Modelled from the spec: a ValidationSchema is a declarative collection of
per-field constraint predicates with attached failure messages. -/
abbrev Schema := List FieldConstraint

/-- The typed value produced by a successful parse: the schema's fields with
the values the flattened form held for them (shape matches the schema
exactly; no extra keys are copied through). -/
abbrev ParsedData := List (String × Option String)

/-- What the catch clause of parseFormData can receive: a ZodError thrown by
schema.parse, or the TypeError thrown by the member access (schema).parse
when the optional schema argument was not supplied. -/
inductive CaughtError where
  | zodError (errors : List ZodIssue)
  | typeError (message : String)
  deriving DecidableEq, Repr

/-- Modelled from the spec: running every field constraint of the schema
against the flattened mapping, accumulating one issue per violated
constraint in schema order (accumulation, not fail-fast). -/
def runSchemaIssues (s : Schema) (form : List (String × String)) : List ZodIssue :=
  (s.filter (fun c => !(c.check (lookupKey form c.field)))).map
    (fun c => ⟨[c.field], c.message⟩)

/-- Modelled from the spec: the typed value a successful parse returns — the
schema's own fields only, read from the flattened mapping. -/
def runSchemaData (s : Schema) (form : List (String × String)) : ParsedData :=
  s.map (fun c => (c.field, lookupKey form c.field))

/-- Object.fromEntries over the ordered FormData entries: each pair is
assigned in sequence order, so a repeated key ends up with its last value. -/
def fromEntries (l : List (String × String)) : List (String × String) :=
  l.foldl (fun m p => setKey m p.1 p.2) []

/-- The value parseFormData returns: the two components of the source's
object literal, each possibly undefined. -/
structure ParseResult where
  data : Option ParsedData
  errors : Option CaughtError
  deriving DecidableEq

/-- The TypeError message produced by accessing .parse on undefined. -/
def undefinedParseMessage : String :=
  "Cannot read properties of undefined (reading parse)"

/-- From the source (parseFormData): flattens formData with Object.fromEntries,
calls (schema as Schema).parse(form) inside try, and returns
(data, undefined) on success; the catch clause returns (undefined, err).
When the optional schema is absent, the member access on undefined throws a
TypeError, which the same catch clause captures. The parse call itself is
modelled from the spec (runSchemaIssues / runSchemaData), Zod being external. -/
def parseFormData (formData : List (String × String)) (schema : Option Schema) :
    ParseResult :=
  match schema with
  | none => ⟨none, some (CaughtError.typeError undefinedParseMessage)⟩
  | some s =>
      match runSchemaIssues s (fromEntries formData) with
      | [] => ⟨some (runSchemaData s (fromEntries formData)), none⟩
      | i :: rest => ⟨none, some (CaughtError.zodError (i :: rest))⟩

/-- First-of-two on options: the left value when present, otherwise the right.
Used to phrase later-assignment-wins facts. -/
def orO (a b : Option String) : Option String :=
  match a with
  | some v => some v
  | none => b

/-- The value held for key k by the last element of the list whose key is k:
elements further right take precedence (the spec language for both the
projector and Object.fromEntries, phrased recursively). -/
def lastValFor {α : Type} (key val : α → String) : List α → String → Option String
  | [], _ => none
  | e :: rest, k => orO (lastValFor key val rest k) (if key e = k then some (val e) else none)

/-- A concrete two-constraint schema used to exhibit accumulation: both
fields must be non-empty. -/
def demoSchema : Schema :=
  [⟨"username", fun v => !(v.getD "").isEmpty, "Admin username is required."⟩,
   ⟨"password", fun v => !(v.getD "").isEmpty, "Password is required."⟩]

/-- A concrete submitted form violating both constraints of demoSchema. -/
def demoForm : List (String × String) := [("username", ""), ("password", "")]

/-- Internal consistency of a FormState value: its tag is one of the three
known tags, and each tag carries exactly the payload of its variant. -/
def ConsistentState (st : FormState) : Prop :=
  (st.state = "success" ∨ st.state = "fail" ∨ st.state = "default") ∧
  (st.state = "success" → st.success = some true ∧ st.messgae.isSome ∧ st.errors = none) ∧
  (st.state = "fail" → st.success = some false ∧ st.errors.isSome ∧ st.messgae = none) ∧
  (st.state = "default" → st.success = none ∧ st.messgae = none ∧ st.errors = none)

/-- C2: SuccessState wraps its message verbatim under the success tag:
the returned state has tag success and its message field is exactly the
given string, with no transformation of any kind. -/
theorem c2_success_state_verbatim (m : String) :
    (SuccessState m).state = "success" ∧ (SuccessState m).success = some true ∧
      (SuccessState m).messgae = some m :=
  ⟨rfl, rfl, rfl⟩

/-- C3: FailState wraps its errors mapping verbatim under the fail tag:
the returned state has tag fail and its errors field is exactly the given
mapping. -/
theorem c3_fail_state_verbatim (e : FormErrors) :
    (FailState e).state = "fail" ∧ (FailState e).errors = some e :=
  ⟨rfl, rfl⟩

/-- C8: when the schema argument is absent, parseFormData does not silently
succeed: the parse step fails with the TypeError of a member access on
undefined, the catch clause captures it, and the call returns data
undefined with the errors component populated by that TypeError (no
SchemaMissing-style error kind exists in this code). -/
theorem c8_missing_schema_caught_type_error (fd : List (String × String)) :
    (parseFormData fd none).data = none ∧
      (parseFormData fd none).errors =
        some (CaughtError.typeError undefinedParseMessage) ∧
      ((parseFormData fd none).errors).isSome = true :=
  ⟨rfl, rfl, rfl⟩

/-- C9: each of the three constructors produces an internally consistent
state: tag success carries success = true and a message, tag fail carries
success = false and an errors payload, tag default carries no flag and no
payload, and no constructor produces a tag outside the three. -/
theorem c9_constructors_consistent :
    (∀ m, ConsistentState (SuccessState m)) ∧
      (∀ e, ConsistentState (FailState e)) ∧ ConsistentState DefaultState := by
  refine ⟨fun m => ?_, fun e => ?_, ?_⟩ <;>
    refine ⟨?_, ?_, ?_, ?_⟩ <;> simp [SuccessState, FailState, DefaultState, ConsistentState]

/-- C7 counterexample: FailState applied to the empty mapping is not
rejected — it returns a fail-tagged state whose errors field is the empty
mapping, silently. -/
theorem c7_counterexample_empty_fail_state :
    (FailState ([] : FormErrors)).state = "fail" ∧
      (FailState ([] : FormErrors)).errors = some ([] : FormErrors) ∧
      ([] : FormErrors).length = 0 :=
  ⟨rfl, rfl, rfl⟩

/-- C7 amended: FailState performs no emptiness or invariant check: for
every errors mapping, including the empty one, it returns the fail-tagged
state wrapping that mapping — an empty FormErrors inside a fail state is
silently produced, never rejected. -/
theorem c7_fail_state_no_guard (e : FormErrors) :
    FailState e = ⟨"fail", some false, none, some e⟩ :=
  rfl

/-- Reading the untouched options: orO with an absent right value is the left. -/
lemma orO_none (a : Option String) : orO a none = a := by
  cases a <;> rfl

/-- orO holds a value exactly when one of its two sides does. -/
lemma orO_isSome (a b : Option String) : (orO a b).isSome = (a.isSome || b.isSome) := by
  cases a <;> cases b <;> rfl

/-- Reads after a JS assignment: the assigned key now reads the assigned value
and every other key reads as before. -/
lemma lookupKey_setKey (m : List (String × String)) (k0 v k : String) :
    lookupKey (setKey m k0 v) k = if k0 = k then some v else lookupKey m k := by
  induction m with
  | nil => simp [setKey, lookupKey]
  | cons hd rest ih =>
      obtain ⟨a, b⟩ := hd
      by_cases ha : a = k0
      · subst ha
        by_cases hk : a = k <;> simp [setKey, lookupKey, hk]
      · by_cases hk : a = k
        · subst hk
          have hne : ¬ k0 = a := fun hh => ha hh.symm
          simp [setKey, lookupKey, ha, hne]
        · simp [setKey, lookupKey, ha, hk, ih]

/-- The keys after a JS assignment: unchanged when the key was present,
the key appended when it was fresh. -/
lemma map_fst_setKey (m : List (String × String)) (k v : String) :
    (setKey m k v).map Prod.fst =
      if m.any (fun p => p.1 = k) then m.map Prod.fst else m.map Prod.fst ++ [k] := by
  induction m with
  | nil => simp [setKey]
  | cons hd rest ih =>
      obtain ⟨a, b⟩ := hd
      by_cases ha : a = k
      · subst ha
        simp [setKey]
      · rcases hr : rest.any (fun p => p.1 = k) with _ | _ <;>
          simp [setKey, ha, ih, hr]

/-- A JS assignment keeps the keys of the object free of duplicates. -/
lemma nodup_map_fst_setKey (m : List (String × String)) (k v : String)
    (h : (m.map Prod.fst).Nodup) : ((setKey m k v).map Prod.fst).Nodup := by
  rw [map_fst_setKey]
  rcases hm : m.any (fun p => p.1 = k) with _ | _
  · have hk : k ∉ m.map Prod.fst := by
      intro hmem
      rcases List.mem_map.mp hmem with ⟨p, hp, hpk⟩
      have : m.any (fun p => p.1 = k) = true :=
        List.any_eq_true.mpr ⟨p, hp, by simp [hpk]⟩
      rw [hm] at this
      exact Bool.false_ne_true this
    rw [if_neg Bool.false_ne_true]
    simp [List.nodup_append, h, hk]
  · simpa using h

/-- Folding JS assignments keeps the keys free of duplicates. -/
lemma nodup_map_fst_foldl {α : Type} (key val : α → String) (l : List α)
    (m : List (String × String)) (h : (m.map Prod.fst).Nodup) :
    ((l.foldl (fun acc e => setKey acc (key e) (val e)) m).map Prod.fst).Nodup := by
  induction l generalizing m with
  | nil => exact h
  | cons e rest ih => exact ih _ (nodup_map_fst_setKey _ _ _ h)

/-- A key reads to a value exactly when it is among the object's keys. -/
lemma lookupKey_isSome_iff (m : List (String × String)) (k : String) :
    (lookupKey m k).isSome = true ↔ k ∈ m.map Prod.fst := by
  induction m with
  | nil => simp [lookupKey]
  | cons hd rest ih =>
      obtain ⟨a, b⟩ := hd
      by_cases ha : a = k
      · subst ha
        simp [lookupKey]
      · simp [lookupKey, ha, ih]
        exact fun hka => absurd hka.symm ha

/-- Reads after folding a sequence of JS assignments over an initial object:
the last assignment to the key wins, and the initial object answers only when
no element of the sequence carries the key. -/
lemma lookupKey_foldl_setKey {α : Type} (key val : α → String) (l : List α)
    (m : List (String × String)) (k : String) :
    lookupKey (l.foldl (fun acc e => setKey acc (key e) (val e)) m) k
      = orO (lastValFor key val l k) (lookupKey m k) := by
  induction l generalizing m with
  | nil => rfl
  | cons e rest ih =>
      have step :
          lookupKey ((e :: rest).foldl (fun acc x => setKey acc (key x) (val x)) m) k
            = orO (lastValFor key val rest k)
                (lookupKey (setKey m (key e) (val e)) k) := ih _
      rw [step, lookupKey_setKey]
      by_cases hc : key e = k
      · cases hA : lastValFor key val rest k <;> simp [lastValFor, orO, hc, hA]
      · cases hA : lastValFor key val rest k <;> simp [lastValFor, orO, hc, hA]

/-- lastValFor holds a value exactly when some element carries the key. -/
lemma lastValFor_isSome_iff {α : Type} (key val : α → String) (l : List α)
    (k : String) :
    (lastValFor key val l k).isSome = true ↔ ∃ e ∈ l, key e = k := by
  induction l with
  | nil => simp [lastValFor]
  | cons e rest ih =>
      by_cases hc : key e = k <;>
        simp [lastValFor, orO_isSome, hc, ih]

/-- lastValFor is the value of the last element carrying the key, phrased
with filter and getLast?. -/
lemma lastValFor_eq_getLast {α : Type} (key val : α → String) (l : List α)
    (k : String) :
    lastValFor key val l k = ((l.filter (fun e => key e = k)).getLast?).map val := by
  induction l with
  | nil => rfl
  | cons e rest ih =>
      by_cases hc : key e = k
      · rcases hf : rest.filter (fun e => key e = k) with _ | ⟨x, xs⟩
        · rw [hf] at ih
          simp [lastValFor, List.filter_cons, hc, hf, ih, orO]
        · rw [hf] at ih
          rcases hg : (x :: xs).getLast? with _ | y
          · exact absurd (List.getLast?_eq_none_iff.mp hg) (List.cons_ne_nil x xs)
          · rw [hg] at ih
            simp [lastValFor, List.filter_cons, hc, hf, ih, hg, orO]
      · simp [lastValFor, List.filter_cons, hc, ih, orO_none]

/-- Reading the projector's output is reading the last issue of the key. -/
lemma lookupKey_zodFormError (errs : ZodErrorT) (k : String) :
    lookupKey (ZodFormError errs) k
      = lastValFor (fun e => pathKey e.path) ZodIssue.message errs.errors k := by
  have h := lookupKey_foldl_setKey (fun e => pathKey e.path) ZodIssue.message
    errs.errors [] k
  simpa [ZodFormError, orO_none, lookupKey] using h

/-- Reading the flattened form is reading the last entry of the key. -/
lemma lookupKey_fromEntries (l : List (String × String)) (k : String) :
    lookupKey (fromEntries l) k = lastValFor Prod.fst Prod.snd l k := by
  have h := lookupKey_foldl_setKey Prod.fst Prod.snd l [] k
  simpa [fromEntries, orO_none, lookupKey] using h

/-- C1 counterexample: on a ZodError with two issues sharing path a, the
projector keeps the second message, not the first — the source assigns
unconditionally, so a later entry with an already-present path overwrites
the earlier one. -/
theorem c1_counterexample_first_entry_not_kept :
    lookupKey (ZodFormError ⟨[⟨["a"], "m1"⟩, ⟨["a"], "m2"⟩]⟩) "a" = some "m2" ∧
      ¬ lookupKey (ZodFormError ⟨[⟨["a"], "m1"⟩, ⟨["a"], "m2"⟩]⟩) "a" = some "m1" := by
  constructor
  · decide
  · decide

/-- C1 amended: the projector's output has exactly one entry per distinct
key (the keys are free of duplicates and are exactly the keys of the
issues), and the message kept for each key is that of the LAST issue with
that key in sequence order — later entries overwrite earlier ones. -/
theorem c1_projector_one_entry_per_path_last_wins (errs : ZodErrorT) :
    ((ZodFormError errs).map Prod.fst).Nodup ∧
      (∀ k, k ∈ (ZodFormError errs).map Prod.fst ↔
        ∃ e ∈ errs.errors, pathKey e.path = k) ∧
      ∀ k, lookupKey (ZodFormError errs) k =
        ((errs.errors.filter (fun e => pathKey e.path = k)).getLast?).map
          ZodIssue.message := by
  refine ⟨?_, fun k => ?_, fun k => ?_⟩
  · have h := nodup_map_fst_foldl (fun e => pathKey e.path) ZodIssue.message
      errs.errors [] (by simp)
    simpa [ZodFormError] using h
  · rw [← lookupKey_isSome_iff, lookupKey_zodFormError, lastValFor_isSome_iff]
  · rw [lookupKey_zodFormError, lastValFor_eq_getLast]

/-- C10: the projector keys each entry by the first path component only —
replacing every path by its first component changes nothing — the key for
an empty path is the string undefined, and several path-less issues
collapse into that single key. -/
theorem c10_keyed_by_first_path_component :
    (∀ es : List ZodIssue,
        ZodFormError ⟨es⟩ =
          ZodFormError ⟨es.map (fun e => ⟨[pathKey e.path], e.message⟩)⟩) ∧
      pathKey [] = "undefined" ∧
      ZodFormError ⟨[⟨[], "m1"⟩, ⟨[], "m2"⟩]⟩ = [("undefined", "m2")] := by
  refine ⟨fun es => ?_, rfl, by decide⟩
  show es.foldl (fun acc err => setKey acc (pathKey err.path) err.message) []
      = (es.map (fun e => (⟨[pathKey e.path], e.message⟩ : ZodIssue))).foldl
          (fun acc err => setKey acc (pathKey err.path) err.message) []
  rw [List.foldl_map]
  rfl

/-- C4: the decoder's flattening is last-key-wins: the value the flattened
mapping holds for a key is the value of the last entry with that key in
submission order, and parseFormData depends on the submitted entries only
through that flattened mapping. -/
theorem c4_flattening_last_key_wins :
    (∀ (fd : List (String × String)) (k : String),
        lookupKey (fromEntries fd) k =
          ((fd.filter (fun p => p.1 = k)).getLast?).map Prod.snd) ∧
      ∀ (fd fd2 : List (String × String)) (s : Option Schema),
        fromEntries fd = fromEntries fd2 → parseFormData fd s = parseFormData fd2 s := by
  constructor
  · intro fd k
    rw [lookupKey_fromEntries, lastValFor_eq_getLast]
  · intro fd fd2 s h
    cases s with
    | none => rfl
    | some sc => simp only [parseFormData, h]

/-- C4 witness: a repeated key decodes to its last submitted value, and two
submissions with the same flattening parse identically. -/
theorem c4_witness_repeated_key :
    lookupKey (fromEntries [("a", "1"), ("a", "2")]) "a" = some "2" ∧
      parseFormData [("a", "1"), ("a", "2")] none = parseFormData [("a", "2")] none := by
  constructor
  · rw [c4_flattening_last_key_wins.1 [("a", "1"), ("a", "2")] "a"]
    decide
  · exact c4_flattening_last_key_wins.2 [("a", "1"), ("a", "2")] [("a", "2")] none (by decide)

/-- C5: parseFormData always returns exactly one populated component: data
defined with errors undefined, or data undefined with errors defined. -/
theorem c5_exactly_one_component (fd : List (String × String)) (s : Option Schema) :
    ((parseFormData fd s).data.isSome = true ∧ (parseFormData fd s).errors = none) ∨
      ((parseFormData fd s).data = none ∧
        ((parseFormData fd s).errors).isSome = true) := by
  cases s with
  | none => exact Or.inr ⟨rfl, rfl⟩
  | some sc =>
      rcases hr : runSchemaIssues sc (fromEntries fd) with _ | ⟨i, rest⟩
      · exact Or.inl (by simp [parseFormData, hr])
      · exact Or.inr (by simp [parseFormData, hr])

/-- C6: a submission violating the schema on some constraints makes
parseFormData return the error branch: data undefined, the errors component
holding every accumulated issue — one per violated constraint, so as many
issues as violated constraints, each violated constraint contributing its
field and message — not just the first. -/
theorem c6_all_violations_accumulated (fd : List (String × String)) (s : Schema)
    (h : (s.filter (fun c => !(c.check (lookupKey (fromEntries fd) c.field)))).length ≠ 0) :
    (parseFormData fd (some s)).data = none ∧
      (parseFormData fd (some s)).errors =
        some (CaughtError.zodError (runSchemaIssues s (fromEntries fd))) ∧
      (runSchemaIssues s (fromEntries fd)).length =
        (s.filter (fun c => !(c.check (lookupKey (fromEntries fd) c.field)))).length ∧
      ∀ c ∈ s, c.check (lookupKey (fromEntries fd) c.field) = false →
        (⟨[c.field], c.message⟩ : ZodIssue) ∈ runSchemaIssues s (fromEntries fd) := by
  have hlen : (runSchemaIssues s (fromEntries fd)).length
      = (s.filter (fun c => !(c.check (lookupKey (fromEntries fd) c.field)))).length := by
    simp [runSchemaIssues]
  have hne : runSchemaIssues s (fromEntries fd) ≠ [] := by
    intro hnil
    rw [hnil] at hlen
    exact h hlen.symm
  obtain ⟨i, rest, hr⟩ := List.exists_cons_of_ne_nil hne
  refine ⟨?_, ?_, hlen, ?_⟩
  · simp [parseFormData, hr]
  · simp [parseFormData, hr]
  · intro c hc hviol
    have hmem : c ∈ s.filter
        (fun c => !(c.check (lookupKey (fromEntries fd) c.field))) :=
      List.mem_filter.mpr ⟨hc, by simp [hviol]⟩
    simp only [runSchemaIssues]
    exact List.mem_map_of_mem _ hmem

/-- C6 witness: a concrete form violating both constraints of a two-field
schema is rejected with both issues accumulated. -/
theorem c6_witness_two_violations :
    (demoSchema.filter
        (fun c => !(c.check (lookupKey (fromEntries demoForm) c.field)))).length ≠ 0 ∧
      (parseFormData demoForm (some demoSchema)).data = none ∧
      (parseFormData demoForm (some demoSchema)).errors =
        some (CaughtError.zodError (runSchemaIssues demoSchema (fromEntries demoForm))) ∧
      (runSchemaIssues demoSchema (fromEntries demoForm)).length = 2 := by
  have h := c6_all_violations_accumulated demoForm demoSchema (by decide)
  exact ⟨by decide, h.1, h.2.1, by decide⟩
